import Mathlib

/-!
Verification of the two Spark structured-streaming jobs of this repository:
Job A (src/sparkpyeventskafkastreamtoconsole.py) and
Job B (src/sparkpyrediskafkastreamtoconsole.py).

Both jobs are linear per-message pipelines built from the engine primitives
from_json, column selection, unbase64 + cast to string, a null filter and
split.  We embed each message as the already-cast string payload (the source
first does `cast(value as string)`) and model every stage as a pure function
per message, mirroring the dataframe names of the source.

The engine primitives are modelled as follows:
  * from_json: a permissive JSON text parse into a `JsonVal` tree followed by
    schema-directed extraction; malformed text or a failed field conversion
    yields the all-null record, a missing field yields a null field, and
    field-name matching is exact (case sensitive), as in the engine's Jackson
    based parser.  Unicode escapes are not modelled; none of the inputs
    considered here contain them.
  * unbase64 + cast to string: a lenient base64 decode (non-alphabet bytes
    skipped, decoding stops at the first padding char) followed by a byte to
    char conversion that is exact on ASCII payloads.
  * split(col, "-"): the engine splits with limit -1, keeping empty segments.
-/

/-- JSON values as produced by a permissive parse.  Numeric literals keep
their raw token text, since every schema field read from them is StringType
and the engine returns the token text for non-string scalars. -/
inductive JsonVal where
  | null : JsonVal
  | bool : Bool → JsonVal
  | num : String → JsonVal
  | str : String → JsonVal
  | arr : List JsonVal → JsonVal
  | obj : List (String × JsonVal) → JsonVal

/-- The open-brace character, written via its code point. -/
def lbrace : Char := Char.ofNat 123

/-- The close-brace character, written via its code point. -/
def rbrace : Char := Char.ofNat 125

def isJsonWs (c : Char) : Bool :=
  c = ' ' || c = '\t' || c = '\n' || c = '\r'

def skipWs : List Char → List Char
  | [] => []
  | c :: cs => if isJsonWs c then skipWs cs else c :: cs

/-- Parse the body of a JSON string literal (the opening quote already
consumed), handling the single-character escape sequences. -/
def parseStringBody : List Char → List Char → Option (String × List Char)
  | [], _ => none
  | '"' :: cs, acc => some (String.mk acc.reverse, cs)
  | '\\' :: c :: cs, acc =>
    if c = '"' then parseStringBody cs ('"' :: acc)
    else if c = '\\' then parseStringBody cs ('\\' :: acc)
    else if c = '/' then parseStringBody cs ('/' :: acc)
    else if c = 'n' then parseStringBody cs ('\n' :: acc)
    else if c = 't' then parseStringBody cs ('\t' :: acc)
    else if c = 'r' then parseStringBody cs ('\r' :: acc)
    else if c = 'b' then parseStringBody cs (Char.ofNat 8 :: acc)
    else if c = 'f' then parseStringBody cs (Char.ofNat 12 :: acc)
    else none
  | ['\\'], _ => none
  | c :: cs, acc => parseStringBody cs (c :: acc)

def isNumStart (c : Char) : Bool := c.isDigit || c = '-'

def isNumChar (c : Char) : Bool :=
  c.isDigit || c = '-' || c = '+' || c = '.' || c = 'e' || c = 'E'

mutual

/-- Parse one JSON value; the fuel bounds the total number of recursive
parser calls and is spent on every call. -/
def parseValue : Nat → List Char → Option (JsonVal × List Char)
  | 0, _ => none
  | f + 1, cs =>
    match skipWs cs with
    | [] => none
    | c :: cs1 =>
      if c = '"' then
        match parseStringBody cs1 [] with
        | some (s, rest) => some (JsonVal.str s, rest)
        | none => none
      else if c = lbrace then
        match skipWs cs1 with
        | [] => none
        | c2 :: cs2 =>
          if c2 = rbrace then some (JsonVal.obj [], cs2)
          else
            match parseMembers f (c2 :: cs2) with
            | some (ms, rest) => some (JsonVal.obj ms, rest)
            | none => none
      else if c = '[' then
        match skipWs cs1 with
        | [] => none
        | c2 :: cs2 =>
          if c2 = ']' then some (JsonVal.arr [], cs2)
          else
            match parseElems f (c2 :: cs2) with
            | some (xs, rest) => some (JsonVal.arr xs, rest)
            | none => none
      else if c = 't' then
        match cs1 with
        | 'r' :: 'u' :: 'e' :: rest => some (JsonVal.bool true, rest)
        | _ => none
      else if c = 'f' then
        match cs1 with
        | 'a' :: 'l' :: 's' :: 'e' :: rest => some (JsonVal.bool false, rest)
        | _ => none
      else if c = 'n' then
        match cs1 with
        | 'u' :: 'l' :: 'l' :: rest => some (JsonVal.null, rest)
        | _ => none
      else if isNumStart c then
        some (JsonVal.num (String.mk (c :: cs1.takeWhile isNumChar)),
              cs1.dropWhile isNumChar)
      else none

/-- Parse the non-empty element list of an array, up to and including the
closing bracket. -/
def parseElems : Nat → List Char → Option (List JsonVal × List Char)
  | 0, _ => none
  | f + 1, cs =>
    match parseValue f cs with
    | none => none
    | some (v, rest) =>
      match skipWs rest with
      | ',' :: rest1 =>
        match parseElems f rest1 with
        | some (vs, rest2) => some (v :: vs, rest2)
        | none => none
      | ']' :: rest1 => some ([v], rest1)
      | _ => none

/-- Parse the non-empty member list of an object, up to and including the
closing brace. -/
def parseMembers : Nat → List Char → Option (List (String × JsonVal) × List Char)
  | 0, _ => none
  | f + 1, cs =>
    match skipWs cs with
    | '"' :: cs1 =>
      match parseStringBody cs1 [] with
      | none => none
      | some (k, rest) =>
        match skipWs rest with
        | ':' :: rest1 =>
          match parseValue f rest1 with
          | none => none
          | some (v, rest2) =>
            match skipWs rest2 with
            | [] => none
            | ',' :: rest3 =>
              match parseMembers f rest3 with
              | some (ms, rest4) => some ((k, v) :: ms, rest4)
              | none => none
            | c3 :: rest3 =>
              if c3 = rbrace then some ([(k, v)], rest3) else none
        | _ => none
    | _ => none

end

/-- Permissive parse of a whole JSON document: the value must be followed by
nothing but whitespace.  The fuel `length + 1` bounds the recursion, which
consumes at least one input character per unit of fuel spent. -/
def parseJson (s : String) : Option JsonVal :=
  match parseValue (s.toList.length + 1) s.toList with
  | some (v, rest) => if skipWs rest = [] then some v else none
  | none => none

def escapeChar (c : Char) : List Char :=
  if c = '"' || c = '\\' then ['\\', c] else [c]

mutual

/-- Serialize a JSON value; used by the StringType conversion, which renders
a non-string, non-null token back to JSON text. -/
def printJson : JsonVal → String
  | JsonVal.null => "null"
  | JsonVal.bool true => "true"
  | JsonVal.bool false => "false"
  | JsonVal.num s => s
  | JsonVal.str s => "\"" ++ String.mk (s.toList.flatMap escapeChar) ++ "\""
  | JsonVal.arr xs => "[" ++ printElems xs ++ "]"
  | JsonVal.obj ms => "\x7b" ++ printMembers ms ++ "\x7d"

def printElems : List JsonVal → String
  | [] => ""
  | [x] => printJson x
  | x :: xs => printJson x ++ "," ++ printElems xs

def printMembers : List (String × JsonVal) → String
  | [] => ""
  | [(k, v)] => "\"" ++ k ++ "\":" ++ printJson v
  | (k, v) :: ms => "\"" ++ k ++ "\":" ++ printJson v ++ "," ++ printMembers ms

end

/-- Field lookup in a parsed object.  Matching is exact on the field name;
when a name occurs twice the later occurrence wins, as the engine's streaming
parser assigns fields in input order. -/
def lookupField : List (String × JsonVal) → String → Option JsonVal
  | [], _ => none
  | (k, v) :: rest, name =>
    match lookupField rest name with
    | some w => some w
    | none => if k = name then some v else none

/-- StringType conversion: a JSON null is a null field, a string is taken as
is, and any other token is rendered back to its text. -/
def convString : JsonVal → Option String
  | JsonVal.null => none
  | JsonVal.str s => some s
  | j => some (printJson j)

/-- Read a StringType field out of an object: missing or null both give a
null field. -/
def fieldString (ms : List (String × JsonVal)) (name : String) : Option String :=
  (lookupField ms name).bind convString

/-- BooleanType conversion; a non-boolean, non-null token is a conversion
failure, which nulls the whole record. -/
def convBoolF : JsonVal → Option (Option Bool)
  | JsonVal.null => some none
  | JsonVal.bool b => some (some b)
  | _ => none

/-! ## Base64, as used by unbase64 followed by cast to string -/

/-- The base64 alphabet character for a sextet value below 64. -/
def b64Char (n : Nat) : Char :=
  if n < 26 then Char.ofNat (65 + n)
  else if n < 52 then Char.ofNat (97 + (n - 26))
  else if n < 62 then Char.ofNat (48 + (n - 52))
  else if n = 62 then '+' else '/'

/-- The sextet value of a base64 alphabet character, none otherwise. -/
def b64Val (c : Char) : Option Nat :=
  if 'A' ≤ c && c ≤ 'Z' then some (c.toNat - 65)
  else if 'a' ≤ c && c ≤ 'z' then some (c.toNat - 71)
  else if '0' ≤ c && c ≤ '9' then some (c.toNat + 4)
  else if c = '+' then some 62
  else if c = '/' then some 63
  else none

/-- Standard base64 encoding of a byte list, with padding. -/
def base64EncodeList : List Nat → List Char
  | [] => []
  | [a] => [b64Char (a / 4), b64Char (a % 4 * 16), '=', '=']
  | [a, b] => [b64Char (a / 4), b64Char (a % 4 * 16 + b / 16), b64Char (b % 16 * 4), '=']
  | a :: b :: c :: rest =>
    b64Char (a / 4) :: b64Char (a % 4 * 16 + b / 16) :: b64Char (b % 16 * 4 + c / 64)
      :: b64Char (c % 64) :: base64EncodeList rest

/-- Lenient sextet scan: non-alphabet characters are skipped and the scan
stops at the first padding character, as in the codec the engine delegates
unbase64 to. -/
def b64Sextets : List Char → List Nat
  | [] => []
  | c :: rest =>
    if c = '=' then []
    else
      match b64Val c with
      | some v => v :: b64Sextets rest
      | none => b64Sextets rest

/-- Reassemble bytes from sextets; a trailing group that does not fill a
whole byte is dropped. -/
def b64Bytes : List Nat → List Nat
  | a :: b :: c :: d :: rest =>
    (a * 4 + b / 16) :: (b % 16 * 16 + c / 4) :: (c % 4 * 64 + d) :: b64Bytes rest
  | [a, b] => [a * 4 + b / 16]
  | [a, b, c] => [a * 4 + b / 16, b % 16 * 16 + c / 4]
  | _ => []

def base64DecodeList (cs : List Char) : List Nat := b64Bytes (b64Sextets cs)

/-- The byte view of an ASCII string; the payloads this repository handles
are ASCII, where the UTF-8 bytes are the character codes. -/
def strToBytes (s : String) : List Nat := s.toList.map Char.toNat

/-- The string obtained by casting decoded bytes back to text. -/
def bytesToStr (bs : List Nat) : String := String.mk (bs.map Char.ofNat)

/-! ## Schemas and schema-directed extraction -/

/-- Row of the CustomerRisk view of Job A, after from_json with
kafkaStediEventSchema and select value.* . -/
structure CustomerRisk where
  customer : Option String
  score : Option String
  riskDate : Option String
deriving Repr, DecidableEq

/-- Output row of Job A, customerRiskStreamingDF: exactly the customer and
score columns. -/
structure CustomerRiskRow where
  customer : Option String
  score : Option String
deriving Repr, DecidableEq

/-- One element of the zSetEntries array of the Redis envelope. -/
structure ZSetEntry where
  element : Option String
  score : Option String
deriving Repr, DecidableEq

/-- Row of the RedisSortedSet view of Job B, after from_json with
kafkaRedisSchema and select value.* .  A null element of the entries array
is kept as none. -/
structure RedisSortedSet where
  key : Option String
  value : Option String
  expiredType : Option String
  expiredValue : Option String
  existType : Option String
  ch : Option String
  incr : Option Bool
  zSetEntries : Option (List (Option ZSetEntry))
deriving Repr, DecidableEq

/-- Row of the CustomerRecords view of Job B, after from_json with
customerSchema and select customer.* . -/
structure CustomerRecord where
  customerName : Option String
  email : Option String
  phone : Option String
  birthDay : Option String
deriving Repr, DecidableEq

/-- Row of emailAndBirthDayStreamingDF (post filter). -/
structure EmailBirthDayRow where
  email : Option String
  birthDay : Option String
deriving Repr, DecidableEq

/-- Output row of Job B, emailAndBirthYearStreamingDF. -/
structure EmailBirthYearRow where
  email : Option String
  birthYear : Option String
deriving Repr, DecidableEq

def nullCustomerRisk : CustomerRisk := ⟨none, none, none⟩

def nullRedisSortedSet : RedisSortedSet := ⟨none, none, none, none, none, none, none, none⟩

def nullCustomerRecord : CustomerRecord := ⟨none, none, none, none⟩

/-- Extraction for kafkaStediEventSchema: three StringType fields. -/
def extractStediEvent : JsonVal → Option CustomerRisk
  | JsonVal.obj ms =>
    some ⟨fieldString ms "customer", fieldString ms "score", fieldString ms "riskDate"⟩
  | _ => none

/-- Conversion for one element of the zSetEntries ArrayType: a struct of two
StringType fields; a null element stays null, anything else fails. -/
def convZSetEntryF : JsonVal → Option (Option ZSetEntry)
  | JsonVal.null => some none
  | JsonVal.obj ms => some (some ⟨fieldString ms "element", fieldString ms "score"⟩)
  | _ => none

def convZSetEntryListF : List JsonVal → Option (List (Option ZSetEntry))
  | [] => some []
  | j :: js =>
    match convZSetEntryF j with
    | none => none
    | some e =>
      match convZSetEntryListF js with
      | none => none
      | some es => some (e :: es)

/-- Conversion for the zSetEntries ArrayType field. -/
def convZSetEntriesF : JsonVal → Option (Option (List (Option ZSetEntry)))
  | JsonVal.null => some none
  | JsonVal.arr js =>
    match convZSetEntryListF js with
    | none => none
    | some es => some (some es)
  | _ => none

/-- Extraction for kafkaRedisSchema.  A failed conversion of the boolean or
array field nulls the whole record (permissive mode); the schema names only
zSetEntries, so any other casing of that field is ignored. -/
def extractRedisSortedSet : JsonVal → Option RedisSortedSet
  | JsonVal.obj ms =>
    match (match lookupField ms "incr" with
           | none => some none
           | some v => convBoolF v) with
    | none => none
    | some incrVal =>
      match (match lookupField ms "zSetEntries" with
             | none => some none
             | some v => convZSetEntriesF v) with
      | none => none
      | some entriesVal =>
        some ⟨fieldString ms "key", fieldString ms "value", fieldString ms "expiredType",
              fieldString ms "expiredValue", fieldString ms "existType", fieldString ms "ch",
              incrVal, entriesVal⟩
  | _ => none

/-- Extraction for customerSchema: four StringType fields. -/
def extractCustomerRecord : JsonVal → Option CustomerRecord
  | JsonVal.obj ms =>
    some ⟨fieldString ms "customerName", fieldString ms "email",
          fieldString ms "phone", fieldString ms "birthDay"⟩
  | _ => none

/-! ## Job A, src/sparkpyeventskafkastreamtoconsole.py -/

/-- from_json(value, kafkaStediEventSchema) followed by select(value.*):
the CustomerRisk view, per message. -/
def customerRiskView (value : String) : CustomerRisk :=
  match parseJson value with
  | none => nullCustomerRisk
  | some j => (extractStediEvent j).getD nullCustomerRisk

/-- customerRiskStreamingDF: select customer, score from CustomerRisk. -/
def customerRiskStreamingDF (value : String) : CustomerRiskRow :=
  ⟨(customerRiskView value).customer, (customerRiskView value).score⟩

/-- Job A on a batch of messages: one output row per message. -/
def customerRiskBatch (values : List String) : List CustomerRiskRow :=
  values.map customerRiskStreamingDF

/-! ## Job B, src/sparkpyrediskafkastreamtoconsole.py -/

/-- from_json(value, kafkaRedisSchema) followed by select(value.*):
the RedisSortedSet view, per message. -/
def redisSortedSetView (value : String) : RedisSortedSet :=
  match parseJson value with
  | none => nullRedisSortedSet
  | some j => (extractRedisSortedSet j).getD nullRedisSortedSet

/-- zSetEntries[0].element on one envelope row: indexing past the end of the
array is null, and the struct field access propagates null. -/
def zSetEntriesElement0 (row : RedisSortedSet) : Option String :=
  ((row.zSetEntries.bind List.head?).bind id).bind ZSetEntry.element

/-- zSetEntriesEncodedStreamingDF: select zSetEntries[0].element as
encodedCustomer from RedisSortedSet. -/
def zSetEntriesEncodedStreamingDF (value : String) : Option String :=
  zSetEntriesElement0 (redisSortedSetView value)

/-- zSetEntriesDecodedStreamingDF's customer column:
unbase64(encodedCustomer) cast to string, null-propagating. -/
def zSetEntriesDecodedStreamingDF (value : String) : Option String :=
  (zSetEntriesEncodedStreamingDF value).map
    (fun s => bytesToStr (base64DecodeList s.toList))

/-- from_json(customer, customerSchema) followed by select(customer.*): the
CustomerRecords view.  A null customer column parses to the all-null row. -/
def customerRecordsView (value : String) : CustomerRecord :=
  match zSetEntriesDecodedStreamingDF value with
  | none => nullCustomerRecord
  | some s =>
    match parseJson s with
    | none => nullCustomerRecord
    | some j => (extractCustomerRecord j).getD nullCustomerRecord

/-- emailAndBirthDayStreamingDF: select email, birthDay from CustomerRecords
where email is not null and birthDay is not null.  none means the row is
filtered out. -/
def emailAndBirthDayStreamingDF (value : String) : Option EmailBirthDayRow :=
  if (customerRecordsView value).email.isSome
      && (customerRecordsView value).birthDay.isSome then
    some ⟨(customerRecordsView value).email, (customerRecordsView value).birthDay⟩
  else none

/-- split(birthDay, "-"): the engine splits with limit -1, keeping empty
segments; splitting the empty string gives one empty segment. -/
def splitList (d : Char) : List Char → List (List Char)
  | [] => [[]]
  | c :: cs =>
    if c = d then [] :: splitList d cs
    else
      match splitList d cs with
      | [] => [[c]]
      | r :: rs => (c :: r) :: rs

/-- split(birthDay, "-").getItem(0) on a (nullable) birthDay column. -/
def birthYearOf (birthDay : Option String) : Option String :=
  birthDay.map (fun b => String.mk ((splitList '-' b.toList).headD []))

/-- emailAndBirthYearStreamingDF: withColumn birthYear then
select(email, birthYear). -/
def emailAndBirthYearStreamingDF (value : String) : Option EmailBirthYearRow :=
  (emailAndBirthDayStreamingDF value).map
    (fun r => ⟨r.email, birthYearOf r.birthDay⟩)

/-- Job B on a batch of messages: at most one output row per message. -/
def emailAndBirthYearBatch (values : List String) : List EmailBirthYearRow :=
  values.filterMap emailAndBirthYearStreamingDF

/-! ## Auxiliary definitions for the statements -/

/-- The spec's description of the derived field: the substring of birthDay
before the first dash.  Stated from the spec's words, to be compared with
the split(...).getItem(0) the code performs. -/
def beforeFirstDash (b : String) : String :=
  String.mk (b.toList.takeWhile (fun c => c != '-'))

mutual

/-- A size measure on JSON values bounding the parser fuel its printed form
needs. -/
def sizeJ : JsonVal → Nat
  | JsonVal.null => 1
  | JsonVal.bool _ => 1
  | JsonVal.num _ => 1
  | JsonVal.str _ => 1
  | JsonVal.arr xs => 1 + sizeElems xs
  | JsonVal.obj ms => 1 + sizeMembers ms

def sizeElems : List JsonVal → Nat
  | [] => 0
  | x :: xs => 1 + sizeJ x + sizeElems xs

def sizeMembers : List (String × JsonVal) → Nat
  | [] => 0
  | (_, v) :: ms => 1 + sizeJ v + sizeMembers ms

end

/-- A character that serializes into a JSON string body as itself: ASCII and
neither quote nor backslash. -/
def safeChar (c : Char) : Bool := c.toNat < 128 && c != '"' && c != '\\'

def safeStr (s : String) : Bool := s.toList.all safeChar

mutual

/-- JSON values whose printed form the parser maps back to the value:
escape-free ASCII strings everywhere and no raw numeric tokens. -/
def safeJson : JsonVal → Bool
  | JsonVal.null => true
  | JsonVal.bool _ => true
  | JsonVal.num _ => false
  | JsonVal.str s => safeStr s
  | JsonVal.arr xs => safeElems xs
  | JsonVal.obj ms => safeMembers ms

def safeElems : List JsonVal → Bool
  | [] => true
  | x :: xs => safeJson x && safeElems xs

def safeMembers : List (String × JsonVal) → Bool
  | [] => true
  | (k, v) :: ms => safeStr k && safeJson v && safeMembers ms

end

/-- A well-formed inner customer record: the four fields of customerSchema,
all present. -/
structure CustomerInput where
  customerName : String
  email : String
  phone : String
  birthDay : String

def safeRecord (r : CustomerInput) : Bool :=
  safeStr r.customerName && safeStr r.email && safeStr r.phone && safeStr r.birthDay

/-- The inner customer JSON value of a record, in the field order of
customerSchema. -/
def innerVal (r : CustomerInput) : JsonVal :=
  JsonVal.obj
    [("customerName", JsonVal.str r.customerName),
     ("email", JsonVal.str r.email),
     ("phone", JsonVal.str r.phone),
     ("birthDay", JsonVal.str r.birthDay)]

/-- The inner customer JSON text for a record. -/
def innerJsonOf (r : CustomerInput) : String := printJson (innerVal r)

/-- Base64 text of an ASCII payload, as the Redis source would place it in
the element field. -/
def encodeElement (s : String) : String :=
  String.mk (base64EncodeList (strToBytes s))

/-- The JSON value of a full outer envelope carrying one zSetEntries entry
whose element is the given encoded payload. -/
def outerEnvelopeVal (encoded : String) : JsonVal :=
  JsonVal.obj
    [("key", JsonVal.str "Q3VzdG9tZXI="),
     ("existType", JsonVal.str "NONE"),
     ("ch", JsonVal.str "false"),
     ("incr", JsonVal.bool false),
     ("zSetEntries", JsonVal.arr
        [JsonVal.obj [("element", JsonVal.str encoded), ("score", JsonVal.str "0.0")]])]

/-- A full outer envelope message wrapping a base64-encoded inner customer
JSON as zSetEntries[0].element. -/
def outerEnvelopeOf (r : CustomerInput) : String :=
  printJson (outerEnvelopeVal (encodeElement (innerJsonOf r)))

/-- The Sam Test record of the end-to-end scenario. -/
def samTest : CustomerInput :=
  ⟨"Sam Test", "sam.test@test.com", "8015551212", "2001-01-03"⟩

/-- The end-to-end input message of the scenario: the inner payload
`"customerName":"Sam Test",...` base64-encoded into zSetEntries[0].element
of a valid outer envelope. -/
def samTestMessage : String := outerEnvelopeOf samTest

theorem splitList_ne_nil (d : Char) (cs : List Char) : splitList d cs ≠ [] := by
  induction cs with
  | nil => simp [splitList]
  | cons c cs ih =>
    simp only [splitList]
    split
    · simp
    · split
      · simp
      · simp

theorem mk_data (s : String) : String.mk s.data = s := rfl

theorem splitList_headD (d : Char) (cs : List Char) :
    (splitList d cs).head?.getD [] = cs.takeWhile (fun c => c != d) := by
  induction cs with
  | nil => simp [splitList]
  | cons c cs ih =>
    simp only [splitList, List.takeWhile]
    by_cases hc : c = d
    · simp [hc]
    · simp only [if_neg hc]
      rcases hs : splitList d cs with _ | ⟨r, rs⟩
      · exact absurd hs (splitList_ne_nil d cs)
      · rw [hs] at ih
        simp only [List.head?, Option.getD] at ih
        subst ih
        have hb : (c != d) = true := by simp [hc]
        simp [hb]

theorem splitList_single (d : Char) (cs : List Char) (h : ∀ c ∈ cs, c ≠ d) :
    splitList d cs = [cs] := by
  induction cs with
  | nil => simp [splitList]
  | cons c cs ih =>
    simp only [splitList, if_neg (h c (by simp))]
    rw [ih (fun x hx => h x (by simp [hx]))]

set_option maxRecDepth 10000 in
/-- Claim C1: end-to-end Job B scenario.  For the input message whose inner
payload is the Sam Test customer JSON, base64-encoded and placed as
zSetEntries[0].element inside a valid outer envelope, Job B produces exactly
the output row with email sam.test@test.com and birthYear 2001. -/
theorem samTest_endToEnd :
    emailAndBirthYearStreamingDF samTestMessage =
      some ⟨some "sam.test@test.com", some "2001"⟩ := by decide

/-- Claim C2: for every input message to Job A whose parsed envelope has
non-null customer and score fields, Job A's output row is exactly the pair
of those two values, passed through unchanged; the output row type has no
other fields. -/
theorem customerRisk_passthrough (s c v : String)
    (hc : (customerRiskView s).customer = some c)
    (hv : (customerRiskView s).score = some v) :
    customerRiskStreamingDF s = ⟨some c, some v⟩ := by
  simp [customerRiskStreamingDF, hc, hv]

set_option maxRecDepth 2000 in
theorem customerRisk_passthrough_witness :
    customerRiskStreamingDF
        "\x7b\"customer\":\"Spencer.Davis@test.com\",\"score\":8.0,\"riskDate\":\"2020-09-01\"\x7d" =
      ⟨some "Spencer.Davis@test.com", some "8.0"⟩ :=
  customerRisk_passthrough _ _ _ (by decide) (by decide)

/-- Claim C3: for every Job B record passing the null filter, the emitted
birthYear is the substring of birthDay before the first dash (stated via
beforeFirstDash, written from the spec's words), and a record whose
birthDay is null after inner parsing produces no output row at all. -/
theorem birthYear_split (s s2 e b : String)
    (h : emailAndBirthDayStreamingDF s = some ⟨some e, some b⟩)
    (h2 : (customerRecordsView s2).birthDay = none) :
    emailAndBirthYearStreamingDF s = some ⟨some e, some (beforeFirstDash b)⟩ ∧
    emailAndBirthYearStreamingDF s2 = none := by
  constructor
  · simp [emailAndBirthYearStreamingDF, h, birthYearOf, beforeFirstDash, splitList_headD,
      String.toList]
  · simp [emailAndBirthYearStreamingDF, emailAndBirthDayStreamingDF, h2]

set_option maxRecDepth 10000 in
theorem birthYear_split_witness :
    emailAndBirthYearStreamingDF
        (outerEnvelopeOf ⟨"Gail Spencer", "Gail.Spencer@test.com", "8015551213", "1963-04-12"⟩) =
      some ⟨some "Gail.Spencer@test.com", some "1963"⟩ ∧
    emailAndBirthYearStreamingDF "oops" = none :=
  birthYear_split _ "oops" "Gail.Spencer@test.com" "1963-04-12" (by decide) (by decide)

/-- Claim C4: a cache-change message whose zSetEntries array is empty
produces no output row: the index-0 access yields null, which propagates
through the base64 decode and the inner JSON parse to the all-null customer
record, which the null filter removes. -/
theorem emptyZSet_noRow (s : String) (h : (redisSortedSetView s).zSetEntries = some []) :
    zSetEntriesEncodedStreamingDF s = none ∧
    zSetEntriesDecodedStreamingDF s = none ∧
    customerRecordsView s = nullCustomerRecord ∧
    emailAndBirthYearStreamingDF s = none := by
  have he : zSetEntriesEncodedStreamingDF s = none := by
    simp [zSetEntriesEncodedStreamingDF, zSetEntriesElement0, h]
  have hd : zSetEntriesDecodedStreamingDF s = none := by
    simp [zSetEntriesDecodedStreamingDF, he]
  have hc : customerRecordsView s = nullCustomerRecord := by
    simp [customerRecordsView, hd]
  refine ⟨he, hd, hc, ?_⟩
  simp [emailAndBirthYearStreamingDF, emailAndBirthDayStreamingDF, hc, nullCustomerRecord]

set_option maxRecDepth 2000 in
theorem emptyZSet_noRow_witness :
    zSetEntriesEncodedStreamingDF "\x7b\"key\":\"x\",\"zSetEntries\":[]\x7d" = none ∧
    zSetEntriesDecodedStreamingDF "\x7b\"key\":\"x\",\"zSetEntries\":[]\x7d" = none ∧
    customerRecordsView "\x7b\"key\":\"x\",\"zSetEntries\":[]\x7d" = nullCustomerRecord ∧
    emailAndBirthYearStreamingDF "\x7b\"key\":\"x\",\"zSetEntries\":[]\x7d" = none :=
  emptyZSet_noRow _ (by decide)

/-- Claim C5: invariant on Job B's output.  No emitted row has a null email
or null birthYear, and every record whose email or birthDay is null after
inner JSON parsing is excluded from the output. -/
theorem output_no_nulls :
    (∀ (s : String) (row : EmailBirthYearRow), emailAndBirthYearStreamingDF s = some row →
        row.email.isSome = true ∧ row.birthYear.isSome = true) ∧
    (∀ s : String, (customerRecordsView s).email = none ∨ (customerRecordsView s).birthDay = none →
        emailAndBirthYearStreamingDF s = none) := by
  constructor
  · intro s row h
    simp only [emailAndBirthYearStreamingDF] at h
    rcases hEB : emailAndBirthDayStreamingDF s with _ | r
    · rw [hEB] at h
      simp at h
    · rw [hEB] at h
      simp only [Option.map_some'] at h
      injection h with h
      subst h
      simp only [emailAndBirthDayStreamingDF] at hEB
      split at hEB
      · rename_i hcond
        simp only [Bool.and_eq_true, Option.isSome_iff_exists] at hcond
        obtain ⟨⟨e, he⟩, ⟨b, hb⟩⟩ := hcond
        cases hEB
        simp [he, hb, birthYearOf]
      · exact Option.noConfusion hEB
  · intro s h
    rcases h with h | h <;>
      simp [emailAndBirthYearStreamingDF, emailAndBirthDayStreamingDF, h]

set_option maxRecDepth 10000 in
theorem output_no_nulls_witness :
    ((⟨some "sam.test@test.com", some "2001"⟩ : EmailBirthYearRow).email.isSome = true ∧
      (⟨some "sam.test@test.com", some "2001"⟩ : EmailBirthYearRow).birthYear.isSome = true) ∧
    emailAndBirthYearStreamingDF "oops" = none :=
  ⟨output_no_nulls.1 samTestMessage ⟨some "sam.test@test.com", some "2001"⟩ (by decide),
   output_no_nulls.2 "oops" (Or.inl (by decide))⟩

/-- Claim C8: processing is a stateless per-record map with no
deduplication.  Both jobs distribute over batch concatenation, and a batch
holding the same message twice yields that message's output twice, so a
message's output depends only on the message itself. -/
theorem per_message_stateless (xs ys : List String) (m : String) :
    emailAndBirthYearBatch (xs ++ ys) = emailAndBirthYearBatch xs ++ emailAndBirthYearBatch ys ∧
    customerRiskBatch (xs ++ ys) = customerRiskBatch xs ++ customerRiskBatch ys ∧
    emailAndBirthYearBatch [m, m] =
      (emailAndBirthYearStreamingDF m).toList ++ (emailAndBirthYearStreamingDF m).toList ∧
    customerRiskBatch [m, m] = [customerRiskStreamingDF m, customerRiskStreamingDF m] := by
  refine ⟨?_, ?_, ?_, ?_⟩
  · simp [emailAndBirthYearBatch]
  · simp [customerRiskBatch]
  · rcases hm : emailAndBirthYearStreamingDF m with _ | row <;>
      simp [emailAndBirthYearBatch, List.filterMap, hm]
  · simp [customerRiskBatch]

/-- Claim C9: only the first entry of zSetEntries is used by Job B's
element extraction, and an envelope carrying both the zSetEntries and the
differently-cased zsetEntries field parses exactly as one carrying only
zSetEntries: the variants collapse to the single schema field. -/
theorem zset_first_entry_and_casing :
    (∀ (row : RedisSortedSet) (e : Option ZSetEntry) (rest : List (Option ZSetEntry)),
        row.zSetEntries = some (e :: rest) →
        zSetEntriesElement0 row = e.bind ZSetEntry.element) ∧
    (∀ v w : JsonVal,
        extractRedisSortedSet (JsonVal.obj [("zSetEntries", v), ("zsetEntries", w)]) =
          extractRedisSortedSet (JsonVal.obj [("zSetEntries", v)])) := by
  constructor
  · intro row e rest h
    simp [zSetEntriesElement0, h]
  · intro v w
    rfl

theorem zset_first_entry_and_casing_witness :
    zSetEntriesElement0
        ⟨none, none, none, none, none, none, none,
          some [some ⟨some "abc", some "0"⟩, none]⟩ = some "abc" ∧
    extractRedisSortedSet (JsonVal.obj [("zSetEntries", JsonVal.null), ("zsetEntries", JsonVal.arr [])]) =
      extractRedisSortedSet (JsonVal.obj [("zSetEntries", JsonVal.null)]) :=
  ⟨zset_first_entry_and_casing.1
      ⟨none, none, none, none, none, none, none,
        some [some ⟨some "abc", some "0"⟩, none]⟩
      (some ⟨some "abc", some "0"⟩) [none] rfl,
    zset_first_entry_and_casing.2 JsonVal.null (JsonVal.arr [])⟩

/-- Claim C10: a record with non-null email and a non-null birthDay that
contains no dash is not filtered out, and its emitted birthYear is the
whole birthDay string, since splitting on the dash yields a one-element
sequence. -/
theorem noDash_wholeBirthDay (s e b : String)
    (h : emailAndBirthDayStreamingDF s = some ⟨some e, some b⟩)
    (hd : b.toList.all (fun c => c != '-') = true) :
    emailAndBirthYearStreamingDF s = some ⟨some e, some b⟩ := by
  have hb : splitList '-' b.data = [b.data] := by
    refine splitList_single _ _ (fun c hc => ?_)
    have := List.all_eq_true.mp hd c hc
    simpa using this
  simp [emailAndBirthYearStreamingDF, h, birthYearOf, hb, String.toList, mk_data]

set_option maxRecDepth 10000 in
theorem noDash_wholeBirthDay_witness :
    emailAndBirthYearStreamingDF
        (outerEnvelopeOf ⟨"Gail Spencer", "Gail.Spencer@test.com", "8015551213", "1963"⟩) =
      some ⟨some "Gail.Spencer@test.com", some "1963"⟩ :=
  noDash_wholeBirthDay _ "Gail.Spencer@test.com" "1963" (by decide) (by decide)

/-- Claim C6: a payload that is malformed JSON at any decode stage of
either job yields the all-null record rather than an error (the decode
functions are total): Job A then emits a row of nulls, Job B's null filter
removes the record, and a well-formed object missing the schema fields
parses to null fields. -/
theorem malformed_all_null (sA sB sC t sD : String) (msD : List (String × JsonVal))
    (hA : parseJson sA = none) (hB : parseJson sB = none)
    (hC : zSetEntriesDecodedStreamingDF sC = some t) (ht : parseJson t = none)
    (hD : parseJson sD = some (JsonVal.obj msD))
    (h1 : lookupField msD "customer" = none)
    (h2 : lookupField msD "score" = none)
    (h3 : lookupField msD "riskDate" = none) :
    customerRiskView sA = nullCustomerRisk ∧
    customerRiskStreamingDF sA = ⟨none, none⟩ ∧
    redisSortedSetView sB = nullRedisSortedSet ∧
    emailAndBirthYearStreamingDF sB = none ∧
    emailAndBirthYearStreamingDF sC = none ∧
    customerRiskView sD = nullCustomerRisk := by
  have hva : customerRiskView sA = nullCustomerRisk := by simp [customerRiskView, hA]
  have hvb : redisSortedSetView sB = nullRedisSortedSet := by simp [redisSortedSetView, hB]
  have hcb : customerRecordsView sB = nullCustomerRecord := by
    simp [customerRecordsView, zSetEntriesDecodedStreamingDF, zSetEntriesEncodedStreamingDF,
      zSetEntriesElement0, hvb, nullRedisSortedSet]
  have hcc : customerRecordsView sC = nullCustomerRecord := by
    simp [customerRecordsView, hC, ht]
  refine ⟨hva, ?_, hvb, ?_, ?_, ?_⟩
  · simp [customerRiskStreamingDF, hva, nullCustomerRisk]
  · simp [emailAndBirthYearStreamingDF, emailAndBirthDayStreamingDF, hcb, nullCustomerRecord]
  · simp [emailAndBirthYearStreamingDF, emailAndBirthDayStreamingDF, hcc, nullCustomerRecord]
  · simp [customerRiskView, hD, extractStediEvent, fieldString, h1, h2, h3, nullCustomerRisk]

set_option maxRecDepth 10000 in
theorem malformed_all_null_witness :
    customerRiskView "oops" = nullCustomerRisk ∧
    customerRiskStreamingDF "oops" = ⟨none, none⟩ ∧
    redisSortedSetView "oops" = nullRedisSortedSet ∧
    emailAndBirthYearStreamingDF "oops" = none ∧
    emailAndBirthYearStreamingDF (printJson (outerEnvelopeVal (encodeElement "notjson"))) = none ∧
    customerRiskView "\x7b\"other\":1\x7d" = nullCustomerRisk :=
  malformed_all_null "oops" "oops" (printJson (outerEnvelopeVal (encodeElement "notjson")))
    "notjson" "\x7b\"other\":1\x7d" [("other", JsonVal.num "1")]
    (by rfl) (by rfl) (by decide) (by rfl) (by rfl) (by rfl) (by rfl) (by rfl)

theorem parseStringBody_safe : ∀ (cs acc rest : List Char),
    (∀ c ∈ cs, safeChar c = true) →
    parseStringBody (cs ++ '"' :: rest) acc = some (String.mk (acc.reverse ++ cs), rest)
  | [], acc, rest, _ => by simp [parseStringBody]
  | c :: cs, acc, rest, h => by
    have hc := h c (by simp)
    have hq : c ≠ '"' := by
      intro e; subst e; simp [safeChar] at hc
    have hb : c ≠ '\\' := by
      intro e; subst e; simp [safeChar] at hc
    have step : parseStringBody ((c :: cs) ++ '"' :: rest) acc =
        parseStringBody (cs ++ '"' :: rest) (c :: acc) := by
      simp only [List.cons_append]
      rw [parseStringBody.eq_def]
      split
      · simp_all
      · rename_i heq; simp at heq; exact absurd heq.1 hq
      · rename_i heq; simp at heq; exact absurd heq.1 hb
      · rename_i heq; simp at heq
      · rename_i heq
        simp only [List.cons.injEq] at heq
        obtain ⟨h1, h2⟩ := heq
        subst h1; subst h2
        rfl
    rw [step, parseStringBody_safe cs (c :: acc) rest (fun x hx => h x (by simp [hx]))]
    simp

theorem escape_eq_self (l : List Char) (h : ∀ c ∈ l, safeChar c = true) :
    l.flatMap escapeChar = l := by
  induction l with
  | nil => rfl
  | cons c cs ih =>
    have hc := h c (by simp)
    have : escapeChar c = [c] := by
      simp only [escapeChar, safeChar] at hc ⊢
      split
      · rename_i hor
        rcases Bool.or_eq_true _ _ |>.mp hor with h1 | h1 <;> simp [beq_iff_eq] at h1 <;>
          simp [h1] at hc
      · rfl
    simp [List.flatMap_cons, this, ih (fun x hx => h x (by simp [hx]))]

theorem printStr_data (s : String) (h : safeStr s = true) :
    (printJson (JsonVal.str s)).data = '"' :: (s.data ++ ['"']) := by
  have hs : ∀ c ∈ s.data, safeChar c = true := by
    intro c hc; exact List.all_eq_true.mp h c hc
  simp [printJson, String.data_append, escape_eq_self s.data hs]

theorem printObj_data (ms : List (String × JsonVal)) :
    (printJson (JsonVal.obj ms)).data = lbrace :: ((printMembers ms).data ++ [rbrace]) := by
  simp only [printJson, String.data_append]
  refine (List.cons_eq_cons.mpr ⟨by decide, ?_⟩)
  simp
  decide

theorem printArr_data (xs : List JsonVal) :
    (printJson (JsonVal.arr xs)).data = '[' :: ((printElems xs).data ++ [']']) := by
  simp [printJson, String.data_append]

theorem printMembers_single_data (k : String) (v : JsonVal) :
    (printMembers [(k, v)]).data = '"' :: (k.data ++ '"' :: ':' :: (printJson v).data) := by
  simp [printMembers, String.data_append]

theorem printMembers_cons_data (k : String) (v : JsonVal) (m : String × JsonVal)
    (ms : List (String × JsonVal)) :
    (printMembers ((k, v) :: m :: ms)).data =
      '"' :: (k.data ++ '"' :: ':' :: ((printJson v).data ++ ',' :: (printMembers (m :: ms)).data)) := by
  simp [printMembers, String.data_append]

theorem printElems_single_data (x : JsonVal) :
    (printElems [x]).data = (printJson x).data := rfl

theorem printElems_cons_data (x y : JsonVal) (xs : List JsonVal) :
    (printElems (x :: y :: xs)).data =
      (printJson x).data ++ ',' :: (printElems (y :: xs)).data := by
  simp [printElems, String.data_append]

/-- The first character of a safely printed value: never whitespace, never a
closing bracket, brace or comma. -/
theorem printHead (v : JsonVal) (h : safeJson v = true) :
    ∃ c l, (printJson v).data = c :: l ∧ isJsonWs c = false ∧
      c ≠ ']' ∧ c ≠ rbrace ∧ c ≠ ',' := by
  cases v with
  | null => exact ⟨'n', _, rfl, by decide, by decide, by decide, by decide⟩
  | bool b =>
    cases b with
    | true => exact ⟨'t', _, rfl, by decide, by decide, by decide, by decide⟩
    | false => exact ⟨'f', _, rfl, by decide, by decide, by decide, by decide⟩
  | num s => simp [safeJson] at h
  | str s =>
    exact ⟨'"', _, printStr_data s h, by decide, by decide, by decide, by decide⟩
  | arr xs =>
    exact ⟨'[', _, printArr_data xs, by decide, by decide, by decide, by decide⟩
  | obj ms =>
    exact ⟨lbrace, _, printObj_data ms, by decide, by decide, by decide, by decide⟩

mutual

theorem printSizeV : ∀ (v : JsonVal), safeJson v = true → sizeJ v ≤ (printJson v).data.length
  | JsonVal.null, _ => by simp [printJson, sizeJ]
  | JsonVal.bool true, _ => by simp [printJson, sizeJ]
  | JsonVal.bool false, _ => by simp [printJson, sizeJ]
  | JsonVal.num s, h => by simp [safeJson] at h
  | JsonVal.str s, h => by
    rw [printStr_data s (by simpa [safeJson] using h)]
    simp [sizeJ]
  | JsonVal.arr xs, h => by
    rw [printArr_data xs]
    have := printSizeE xs (by simpa [safeJson] using h)
    simp only [sizeJ, List.length_cons, List.length_append]
    omega
  | JsonVal.obj ms, h => by
    rw [printObj_data ms]
    have := printSizeM ms (by simpa [safeJson] using h)
    simp only [sizeJ, List.length_cons, List.length_append]
    omega

theorem printSizeE : ∀ (xs : List JsonVal), safeElems xs = true →
    sizeElems xs ≤ (printElems xs).data.length + 1
  | [], _ => by simp [printElems, sizeElems]
  | [x], h => by
    have hx : safeJson x = true := by
      simp only [safeElems, Bool.and_eq_true] at h
      exact h.1
    have := printSizeV x hx
    rw [printElems_single_data]
    simp only [sizeElems]
    omega
  | x :: y :: xs, h => by
    simp only [safeElems, Bool.and_eq_true] at h
    have h1 := printSizeV x h.1
    have h2 := printSizeE (y :: xs) (by simp [safeElems, h.2.1, h.2.2])
    rw [printElems_cons_data]
    simp only [sizeElems, List.length_append, List.length_cons] at h2 ⊢
    omega

theorem printSizeM : ∀ (ms : List (String × JsonVal)), safeMembers ms = true →
    sizeMembers ms ≤ (printMembers ms).data.length + 1
  | [], _ => by simp [printMembers, sizeMembers]
  | [(k, v)], h => by
    have hv : safeJson v = true := by
      simp only [safeMembers, Bool.and_eq_true] at h
      exact h.1.2
    have := printSizeV v hv
    rw [printMembers_single_data]
    simp only [sizeMembers, List.length_cons, List.length_append]
    omega
  | (k, v) :: (k2, v2) :: ms, h => by
    simp only [safeMembers, Bool.and_eq_true] at h
    have h1 := printSizeV v h.1.2
    have h2 := printSizeM ((k2, v2) :: ms) (by
      simp only [safeMembers, Bool.and_eq_true]
      exact h.2)
    rw [printMembers_cons_data]
    simp only [sizeMembers, List.length_append, List.length_cons] at h2 ⊢
    omega

end

theorem pv_null_step (f : Nat) (r : List Char) :
    parseValue (f + 1) ('n' :: 'u' :: 'l' :: 'l' :: r) = some (JsonVal.null, r) := rfl

theorem pv_true_step (f : Nat) (r : List Char) :
    parseValue (f + 1) ('t' :: 'r' :: 'u' :: 'e' :: r) = some (JsonVal.bool true, r) := rfl

theorem pv_false_step (f : Nat) (r : List Char) :
    parseValue (f + 1) ('f' :: 'a' :: 'l' :: 's' :: 'e' :: r) = some (JsonVal.bool false, r) := rfl

theorem pv_quote_step (f : Nat) (l : List Char) :
    parseValue (f + 1) ('"' :: l) =
      match parseStringBody l [] with
      | some (s, rest) => some (JsonVal.str s, rest)
      | none => none := rfl

theorem pv_obj_empty_step (f : Nat) (r : List Char) :
    parseValue (f + 1) (lbrace :: rbrace :: r) = some (JsonVal.obj [], r) := rfl

theorem pv_obj_quote_step (f : Nat) (l : List Char) :
    parseValue (f + 1) (lbrace :: '"' :: l) =
      match parseMembers f ('"' :: l) with
      | some (ms, rest) => some (JsonVal.obj ms, rest)
      | none => none := rfl

theorem pv_arr_empty_step (f : Nat) (r : List Char) :
    parseValue (f + 1) ('[' :: ']' :: r) = some (JsonVal.arr [], r) := rfl

theorem skipWs_cons_of (c : Char) (cs : List Char) (h : isJsonWs c = false) :
    skipWs (c :: cs) = c :: cs := by
  simp only [skipWs]
  simp [h]

theorem pv_arr_step (f : Nat) (c2 : Char) (cs2 : List Char)
    (hw : isJsonWs c2 = false) (hne : c2 ≠ ']') :
    parseValue (f + 1) ('[' :: c2 :: cs2) =
      match parseElems f (c2 :: cs2) with
      | some (xs, rest) => some (JsonVal.arr xs, rest)
      | none => none := by
  have h0 : skipWs ('[' :: c2 :: cs2) = '[' :: c2 :: cs2 := skipWs_cons_of _ _ (by decide)
  have hs : skipWs (c2 :: cs2) = c2 :: cs2 := skipWs_cons_of _ _ hw
  simp only [parseValue, h0, hs]
  simp +decide [hne]

theorem printMembersHead (m : String × JsonVal) (ms : List (String × JsonVal)) :
    ∃ l, (printMembers (m :: ms)).data = '"' :: l := by
  obtain ⟨k0, v0⟩ := m
  cases ms with
  | nil => exact ⟨_, printMembers_single_data k0 v0⟩
  | cons m2 ms => exact ⟨_, printMembers_cons_data k0 v0 m2 ms⟩

theorem printElemsHead (x : JsonVal) (xs : List JsonVal) (h : safeJson x = true) :
    ∃ c l, (printElems (x :: xs)).data = c :: l ∧ isJsonWs c = false ∧ c ≠ ']' := by
  obtain ⟨c, l, hd, hw, hne, _, _⟩ := printHead x h
  cases xs with
  | nil => exact ⟨c, l, by rw [printElems_single_data, hd], hw, hne⟩
  | cons y ys =>
    refine ⟨c, l ++ ',' :: (printElems (y :: ys)).data, ?_, hw, hne⟩
    rw [printElems_cons_data, hd]
    simp

mutual

theorem parsePrintV : ∀ (v : JsonVal) (k : Nat) (rest : List Char), safeJson v = true →
    parseValue (sizeJ v + k) ((printJson v).data ++ rest) = some (v, rest)
  | JsonVal.null, k, rest, _ => by
    rw [show sizeJ JsonVal.null + k = k + 1 from by simp [sizeJ]; omega]
    exact pv_null_step k rest
  | JsonVal.bool true, k, rest, _ => by
    rw [show sizeJ (JsonVal.bool true) + k = k + 1 from by simp [sizeJ]; omega]
    exact pv_true_step k rest
  | JsonVal.bool false, k, rest, _ => by
    rw [show sizeJ (JsonVal.bool false) + k = k + 1 from by simp [sizeJ]; omega]
    exact pv_false_step k rest
  | JsonVal.num s, _, _, h => by simp [safeJson] at h
  | JsonVal.str s, k, rest, h => by
    rw [show sizeJ (JsonVal.str s) + k = k + 1 from by simp [sizeJ]; omega]
    rw [printStr_data s (by simpa [safeJson] using h)]
    simp only [List.cons_append, List.append_assoc, List.singleton_append, List.nil_append]
    rw [pv_quote_step]
    have hsf : safeStr s = true := by simpa [safeJson] using h
    have hs : ∀ c ∈ s.data, safeChar c = true :=
      fun c hc => List.all_eq_true.mp hsf c hc
    rw [parseStringBody_safe s.data [] rest hs]
    simp [mk_data]
  | JsonVal.arr [], k, rest, _ => by
    rw [show sizeJ (JsonVal.arr []) + k = k + 1 from by simp [sizeJ, sizeElems]; omega]
    rw [printArr_data]
    simp only [printElems, List.cons_append, List.nil_append]
    exact pv_arr_empty_step k rest
  | JsonVal.arr (x :: xs), k, rest, h => by
    have hsafe : safeElems (x :: xs) = true := by simpa [safeJson] using h
    have hx : safeJson x = true := by
      simp only [safeElems, Bool.and_eq_true] at hsafe
      exact hsafe.1
    rw [show sizeJ (JsonVal.arr (x :: xs)) + k = (sizeElems (x :: xs) + k) + 1 from by
      simp [sizeJ]; omega]
    rw [printArr_data]
    obtain ⟨c, l, hd, hw, hne⟩ := printElemsHead x xs hx
    rw [hd]
    simp only [List.cons_append, List.append_assoc, List.singleton_append, List.nil_append]
    rw [pv_arr_step _ c _ hw hne]
    have hE := parsePrintE (x :: xs) k rest (by simp) hsafe
    rw [hd] at hE
    simp only [List.cons_append, List.append_assoc, List.singleton_append, List.nil_append] at hE
    rw [hE]
  | JsonVal.obj [], k, rest, _ => by
    rw [show sizeJ (JsonVal.obj []) + k = k + 1 from by simp [sizeJ, sizeMembers]; omega]
    rw [printObj_data]
    simp only [printMembers, List.cons_append, List.nil_append]
    exact pv_obj_empty_step k rest
  | JsonVal.obj (m :: ms), k, rest, h => by
    have hsafe : safeMembers (m :: ms) = true := by simpa [safeJson] using h
    rw [show sizeJ (JsonVal.obj (m :: ms)) + k = (sizeMembers (m :: ms) + k) + 1 from by
      simp [sizeJ]; omega]
    rw [printObj_data]
    obtain ⟨l, hd⟩ := printMembersHead m ms
    rw [hd]
    simp only [List.cons_append, List.append_assoc, List.singleton_append, List.nil_append]
    rw [pv_obj_quote_step]
    have hM := parsePrintM (m :: ms) k rest (by simp) hsafe
    rw [hd] at hM
    simp only [List.cons_append, List.append_assoc, List.singleton_append, List.nil_append] at hM
    rw [hM]

theorem parsePrintE : ∀ (xs : List JsonVal) (k : Nat) (rest : List Char), xs ≠ [] →
    safeElems xs = true →
    parseElems (sizeElems xs + k) ((printElems xs).data ++ ']' :: rest) = some (xs, rest)
  | [], _, _, hne, _ => absurd rfl hne
  | [x], k, rest, _, h => by
    have hx : safeJson x = true := by
      simp only [safeElems, Bool.and_eq_true] at h
      exact h.1
    rw [show sizeElems [x] + k = (sizeJ x + k) + 1 from by simp [sizeElems]; omega]
    rw [printElems_single_data]
    have hpv := parsePrintV x k (']' :: rest) hx
    simp +decide [parseElems, hpv, skipWs, isJsonWs]
  | x :: y :: ys, k, rest, _, h => by
    simp only [safeElems, Bool.and_eq_true] at h
    have hx : safeJson x = true := h.1
    have htail : safeElems (y :: ys) = true := by
      simp only [safeElems, Bool.and_eq_true]
      exact h.2
    rw [show sizeElems (x :: y :: ys) + k = (sizeJ x + (sizeElems (y :: ys) + k)) + 1 from by
      simp [sizeElems]; omega]
    rw [printElems_cons_data]
    simp only [List.cons_append, List.append_assoc, List.nil_append]
    have hpv := parsePrintV x (sizeElems (y :: ys) + k)
      (',' :: ((printElems (y :: ys)).data ++ ']' :: rest)) hx
    have hE : parseElems (sizeJ x + (sizeElems (y :: ys) + k))
        ((printElems (y :: ys)).data ++ ']' :: rest) = some (y :: ys, rest) := by
      rw [show sizeJ x + (sizeElems (y :: ys) + k) = sizeElems (y :: ys) + (sizeJ x + k) from by
        omega]
      exact parsePrintE (y :: ys) (sizeJ x + k) rest (by simp) htail
    simp +decide [parseElems, hpv, hE, skipWs, isJsonWs]

theorem parsePrintM : ∀ (ms : List (String × JsonVal)) (k : Nat) (rest : List Char), ms ≠ [] →
    safeMembers ms = true →
    parseMembers (sizeMembers ms + k) ((printMembers ms).data ++ rbrace :: rest) = some (ms, rest)
  | [], _, _, hne, _ => absurd rfl hne
  | [(k0, v)], k, rest, _, h => by
    simp only [safeMembers, Bool.and_eq_true] at h
    have hk : safeStr k0 = true := h.1.1
    have hv : safeJson v = true := h.1.2
    rw [show sizeMembers [(k0, v)] + k = (sizeJ v + k) + 1 from by simp [sizeMembers]; omega]
    rw [printMembers_single_data]
    simp only [List.cons_append, List.append_assoc, List.nil_append]
    have hk2 : ∀ c ∈ k0.data, safeChar c = true :=
      fun c hc => List.all_eq_true.mp hk c hc
    have hsb := parseStringBody_safe k0.data []
      (':' :: ((printJson v).data ++ rbrace :: rest)) hk2
    have hpv := parsePrintV v k (rbrace :: rest) hv
    simp +decide [parseMembers, hsb, hpv, skipWs, isJsonWs, mk_data]
  | (k0, v) :: (k2, v2) :: ms, k, rest, _, h => by
    simp only [safeMembers, Bool.and_eq_true] at h
    have hk : safeStr k0 = true := h.1.1
    have hv : safeJson v = true := h.1.2
    have htail : safeMembers ((k2, v2) :: ms) = true := by
      simp only [safeMembers, Bool.and_eq_true]
      exact h.2
    rw [show sizeMembers ((k0, v) :: (k2, v2) :: ms) + k =
        (sizeJ v + (sizeMembers ((k2, v2) :: ms) + k)) + 1 from by simp [sizeMembers]; omega]
    rw [printMembers_cons_data]
    simp only [List.cons_append, List.append_assoc, List.nil_append]
    have hk2 : ∀ c ∈ k0.data, safeChar c = true :=
      fun c hc => List.all_eq_true.mp hk c hc
    have hsb := parseStringBody_safe k0.data []
      (':' :: ((printJson v).data ++ ',' :: ((printMembers ((k2, v2) :: ms)).data ++ rbrace :: rest)))
      hk2
    have hpv := parsePrintV v (sizeMembers ((k2, v2) :: ms) + k)
      (',' :: ((printMembers ((k2, v2) :: ms)).data ++ rbrace :: rest)) hv
    have hM : parseMembers (sizeJ v + (sizeMembers ((k2, v2) :: ms) + k))
        ((printMembers ((k2, v2) :: ms)).data ++ rbrace :: rest) = some ((k2, v2) :: ms, rest) := by
      rw [show sizeJ v + (sizeMembers ((k2, v2) :: ms) + k) =
          sizeMembers ((k2, v2) :: ms) + (sizeJ v + k) from by omega]
      exact parsePrintM ((k2, v2) :: ms) (sizeJ v + k) rest (by simp) htail
    simp +decide [parseMembers, hsb, hpv, hM, skipWs, isJsonWs, mk_data]

end

theorem parseJson_print (v : JsonVal) (h : safeJson v = true) :
    parseJson (printJson v) = some v := by
  have hsz := printSizeV v h
  have hk : (printJson v).data.length + 1 =
      sizeJ v + ((printJson v).data.length + 1 - sizeJ v) := by omega
  have hp := parsePrintV v ((printJson v).data.length + 1 - sizeJ v) [] h
  rw [List.append_nil] at hp
  simp only [parseJson, String.toList]
  rw [hk, hp]
  simp [skipWs]

theorem b64Char_val (n : Nat) (h : n < 64) : b64Val (b64Char n) = some n := by
  have hall : ∀ m : Fin 64, b64Val (b64Char m.val) = some m.val := by decide
  exact hall ⟨n, h⟩

theorem b64Char_ne_pad (n : Nat) (h : n < 64) : b64Char n ≠ '=' := by
  have hall : ∀ m : Fin 64, b64Char m.val ≠ '=' := by decide
  exact hall ⟨n, h⟩

theorem b64Char_safe (n : Nat) (h : n < 64) : safeChar (b64Char n) = true := by
  have hall : ∀ m : Fin 64, safeChar (b64Char m.val) = true := by decide
  exact hall ⟨n, h⟩

theorem b64Sextets_cons (ch : Char) (l : List Char) (v : Nat)
    (hne : ch ≠ '=') (hv : b64Val ch = some v) :
    b64Sextets (ch :: l) = v :: b64Sextets l := by
  simp only [b64Sextets]
  simp [hne, hv]

theorem b64_roundtrip : ∀ (bs : List Nat), (∀ x ∈ bs, x < 256) →
    base64DecodeList (base64EncodeList bs) = bs
  | [], _ => rfl
  | [a], h => by
    have ha : a < 256 := h a (by simp)
    have h1 : a / 4 < 64 := by omega
    have h2 : a % 4 * 16 < 64 := by omega
    simp only [base64EncodeList, base64DecodeList]
    rw [b64Sextets_cons _ _ _ (b64Char_ne_pad _ h1) (b64Char_val _ h1),
      b64Sextets_cons _ _ _ (b64Char_ne_pad _ h2) (b64Char_val _ h2)]
    simp +decide [b64Sextets, b64Bytes, List.cons.injEq]
    omega
  | [a, b], h => by
    have ha : a < 256 := h a (by simp)
    have hb : b < 256 := h b (by simp)
    have h1 : a / 4 < 64 := by omega
    have h2 : a % 4 * 16 + b / 16 < 64 := by omega
    have h3 : b % 16 * 4 < 64 := by omega
    simp only [base64EncodeList, base64DecodeList]
    rw [b64Sextets_cons _ _ _ (b64Char_ne_pad _ h1) (b64Char_val _ h1),
      b64Sextets_cons _ _ _ (b64Char_ne_pad _ h2) (b64Char_val _ h2),
      b64Sextets_cons _ _ _ (b64Char_ne_pad _ h3) (b64Char_val _ h3)]
    simp +decide [b64Sextets, b64Bytes, List.cons.injEq]
    omega
  | a :: b :: c :: rest, h => by
    have ha : a < 256 := h a (by simp)
    have hb : b < 256 := h b (by simp)
    have hc : c < 256 := h c (by simp)
    have h1 : a / 4 < 64 := by omega
    have h2 : a % 4 * 16 + b / 16 < 64 := by omega
    have h3 : b % 16 * 4 + c / 64 < 64 := by omega
    have h4 : c % 64 < 64 := by omega
    simp only [base64EncodeList, base64DecodeList]
    rw [b64Sextets_cons _ _ _ (b64Char_ne_pad _ h1) (b64Char_val _ h1),
      b64Sextets_cons _ _ _ (b64Char_ne_pad _ h2) (b64Char_val _ h2),
      b64Sextets_cons _ _ _ (b64Char_ne_pad _ h3) (b64Char_val _ h3),
      b64Sextets_cons _ _ _ (b64Char_ne_pad _ h4) (b64Char_val _ h4)]
    simp only [b64Bytes]
    have ih := b64_roundtrip rest (fun x hx => h x (by simp [hx]))
    simp only [base64DecodeList] at ih
    rw [ih]
    simp only [List.cons.injEq]
    exact ⟨by omega, by omega, by omega, trivial⟩

theorem encode_safe : ∀ (bs : List Nat), (∀ x ∈ bs, x < 256) →
    ∀ c ∈ base64EncodeList bs, safeChar c = true
  | [], _ => by simp [base64EncodeList]
  | [a], h => by
    have ha : a < 256 := h a (by simp)
    intro c hcm
    simp only [base64EncodeList, List.mem_cons, List.not_mem_nil, or_false] at hcm
    rcases hcm with rfl | rfl | rfl | rfl
    · exact b64Char_safe _ (by omega)
    · exact b64Char_safe _ (by omega)
    · decide
    · decide
  | [a, b], h => by
    have ha : a < 256 := h a (by simp)
    have hb : b < 256 := h b (by simp)
    intro c hcm
    simp only [base64EncodeList, List.mem_cons, List.not_mem_nil, or_false] at hcm
    rcases hcm with rfl | rfl | rfl | rfl
    · exact b64Char_safe _ (by omega)
    · exact b64Char_safe _ (by omega)
    · exact b64Char_safe _ (by omega)
    · decide
  | a :: b :: c :: rest, h => by
    have ha : a < 256 := h a (by simp)
    have hb : b < 256 := h b (by simp)
    have hc : c < 256 := h c (by simp)
    intro x hxm
    simp only [base64EncodeList, List.mem_cons] at hxm
    rcases hxm with rfl | rfl | rfl | rfl | hxm
    · exact b64Char_safe _ (by omega)
    · exact b64Char_safe _ (by omega)
    · exact b64Char_safe _ (by omega)
    · exact b64Char_safe _ (by omega)
    · exact encode_safe rest (fun y hy => h y (by simp [hy])) x hxm

theorem safeChar_lt (c : Char) (h : safeChar c = true) : c.toNat < 128 := by
  simp [safeChar] at h
  exact h.1.1

mutual

theorem printAsciiV : ∀ (v : JsonVal), safeJson v = true →
    ∀ c ∈ (printJson v).data, c.toNat < 128
  | JsonVal.null, _ => by decide
  | JsonVal.bool true, _ => by decide
  | JsonVal.bool false, _ => by decide
  | JsonVal.num s, h => by simp [safeJson] at h
  | JsonVal.str s, h => by
    intro c hc
    rw [printStr_data s (by simpa [safeJson] using h)] at hc
    simp only [List.mem_cons, List.mem_append, List.mem_singleton,
      List.not_mem_nil, or_false] at hc
    rcases hc with rfl | hc | rfl
    · decide
    · have hsf : safeStr s = true := by simpa [safeJson] using h
      exact safeChar_lt c (List.all_eq_true.mp hsf c hc)
    · decide
  | JsonVal.arr xs, h => by
    intro c hc
    rw [printArr_data xs] at hc
    simp only [List.mem_cons, List.mem_append, List.mem_singleton,
      List.not_mem_nil, or_false] at hc
    rcases hc with rfl | hc | rfl
    · decide
    · exact printAsciiE xs (by simpa [safeJson] using h) c hc
    · decide
  | JsonVal.obj ms, h => by
    intro c hc
    rw [printObj_data ms] at hc
    simp only [List.mem_cons, List.mem_append, List.mem_singleton,
      List.not_mem_nil, or_false] at hc
    rcases hc with rfl | hc | rfl
    · decide
    · exact printAsciiM ms (by simpa [safeJson] using h) c hc
    · decide

theorem printAsciiE : ∀ (xs : List JsonVal), safeElems xs = true →
    ∀ c ∈ (printElems xs).data, c.toNat < 128
  | [], _ => by decide
  | [x], h => by
    intro c hc
    rw [printElems_single_data] at hc
    exact printAsciiV x (by
      simp only [safeElems, Bool.and_eq_true] at h
      exact h.1) c hc
  | x :: y :: ys, h => by
    simp only [safeElems, Bool.and_eq_true] at h
    intro c hc
    rw [printElems_cons_data] at hc
    simp only [List.mem_append, List.mem_cons, List.not_mem_nil, or_false] at hc
    rcases hc with hc | rfl | hc
    · exact printAsciiV x h.1 c hc
    · decide
    · exact printAsciiE (y :: ys) (by simp [safeElems, h.2.1, h.2.2]) c hc

theorem printAsciiM : ∀ (ms : List (String × JsonVal)), safeMembers ms = true →
    ∀ c ∈ (printMembers ms).data, c.toNat < 128
  | [], _ => by decide
  | [(k0, v)], h => by
    simp only [safeMembers, Bool.and_eq_true] at h
    intro c hc
    rw [printMembers_single_data] at hc
    simp only [List.mem_cons, List.mem_append, List.not_mem_nil, or_false] at hc
    rcases hc with rfl | hc | rfl | rfl | hc
    · decide
    · exact safeChar_lt c (List.all_eq_true.mp h.1.1 c hc)
    · decide
    · decide
    · exact printAsciiV v h.1.2 c hc
  | (k0, v) :: (k2, v2) :: ms, h => by
    simp only [safeMembers, Bool.and_eq_true] at h
    intro c hc
    rw [printMembers_cons_data] at hc
    simp only [List.mem_cons, List.mem_append, List.not_mem_nil, or_false] at hc
    rcases hc with rfl | hc | rfl | rfl | hc | rfl | hc
    · decide
    · exact safeChar_lt c (List.all_eq_true.mp h.1.1 c hc)
    · decide
    · decide
    · exact printAsciiV v h.1.2 c hc
    · decide
    · exact printAsciiM ((k2, v2) :: ms) (by
        simp only [safeMembers, Bool.and_eq_true]
        exact h.2) c hc

end

theorem strToBytes_lt (s : String) (hs : ∀ c ∈ s.data, c.toNat < 128) :
    ∀ x ∈ strToBytes s, x < 256 := by
  intro x hx
  simp only [strToBytes, String.toList, List.mem_map] at hx
  obtain ⟨c, hc, rfl⟩ := hx
  have := hs c hc
  omega

theorem bytesToStr_strToBytes (s : String) : bytesToStr (strToBytes s) = s := by
  simp only [bytesToStr, strToBytes, String.toList, List.map_map]
  have : ∀ c : Char, (Char.ofNat ∘ Char.toNat) c = c := fun c => Char.ofNat_toNat c
  rw [List.map_congr_left (fun c _ => this c)]
  simp [mk_data]

theorem safeStr_encodeElement (s : String) (hs : ∀ c ∈ s.data, c.toNat < 128) :
    safeStr (encodeElement s) = true := by
  simp only [encodeElement, safeStr, String.toList]
  rw [List.all_eq_true]
  intro c hc
  exact encode_safe _ (strToBytes_lt s hs) c hc

/-- Claim C7: round-trip.  For every inner customer record whose fields
serialize without escaping (ASCII, no quote or backslash), base64-encoding
its JSON text, wrapping it as zSetEntries[0].element of a full outer
envelope and running Job B's decode stages recovers the base64 layer's
payload text exactly and the identical inner record. -/
theorem decode_roundtrip (r : CustomerInput) (h : safeRecord r = true) :
    zSetEntriesDecodedStreamingDF (outerEnvelopeOf r) = some (innerJsonOf r) ∧
    customerRecordsView (outerEnvelopeOf r) =
      ⟨some r.customerName, some r.email, some r.phone, some r.birthDay⟩ := by
  simp only [safeRecord, Bool.and_eq_true] at h
  have hsafeInner : safeJson (innerVal r) = true := by
    simp +decide [innerVal, safeJson, safeMembers]
    tauto
  have hinnerAscii : ∀ c ∈ (innerJsonOf r).data, c.toNat < 128 :=
    printAsciiV (innerVal r) hsafeInner
  have hEncSafe : safeStr (encodeElement (innerJsonOf r)) = true :=
    safeStr_encodeElement _ hinnerAscii
  have hsafeOuter : safeJson (outerEnvelopeVal (encodeElement (innerJsonOf r))) = true := by
    simp +decide [outerEnvelopeVal, safeJson, safeMembers, safeElems]
    exact hEncSafe
  have hparseOuter : parseJson (outerEnvelopeOf r) =
      some (outerEnvelopeVal (encodeElement (innerJsonOf r))) :=
    parseJson_print _ hsafeOuter
  have hview : redisSortedSetView (outerEnvelopeOf r) =
      ⟨some "Q3VzdG9tZXI=", none, none, none, some "NONE", some "false", some false,
        some [some ⟨some (encodeElement (innerJsonOf r)), some "0.0"⟩]⟩ := by
    simp only [redisSortedSetView, hparseOuter]
    rfl
  have hdec : zSetEntriesDecodedStreamingDF (outerEnvelopeOf r) = some (innerJsonOf r) := by
    simp only [zSetEntriesDecodedStreamingDF, zSetEntriesEncodedStreamingDF,
      zSetEntriesElement0, hview]
    simp only [Option.some_bind, List.head?_cons, Option.map_some', id_eq]
    have hlist : (encodeElement (innerJsonOf r)).toList =
        base64EncodeList (strToBytes (innerJsonOf r)) := rfl
    rw [hlist, b64_roundtrip _ (strToBytes_lt _ hinnerAscii), bytesToStr_strToBytes]
  have hparseInner : parseJson (innerJsonOf r) = some (innerVal r) :=
    parseJson_print _ hsafeInner
  refine ⟨hdec, ?_⟩
  simp only [customerRecordsView, hdec, hparseInner]
  rfl

set_option maxRecDepth 10000 in
theorem decode_roundtrip_witness :
    zSetEntriesDecodedStreamingDF (outerEnvelopeOf samTest) = some (innerJsonOf samTest) ∧
    customerRecordsView (outerEnvelopeOf samTest) =
      ⟨some "Sam Test", some "sam.test@test.com", some "8015551212", some "2001-01-03"⟩ :=
  decode_roundtrip samTest (by decide)
